import Mathlib

/-!
Shallow embedding of the mquandalle/cli-administratif repository
(mes-echeances-urssaf.ts, mon-kbis.ts, utils.ts): the Bun.secrets-backed
secret store and session cache, the URSSAF OIDC-PKCE login handshake, the
monidenum legacy redirect-chase login, credential prompting, and the
schedule-totals presentation.  Definitions are translated from the
TypeScript source; theorems settle the specification claims.
-/

namespace CliAdmin

/-- Keychain service namespace (`KEYCHAIN_SERVICE` in utils.ts). -/
def KEYCHAIN_SERVICE : String := "cli-administratif"

/-- Service names supported by utils.ts (`type ServiceName = "kbis" | "urssaf"`). -/
inductive ServiceName where
  | kbis
  | urssaf
deriving DecidableEq, Repr

/-- The string a service name denotes. -/
def ServiceName.str : ServiceName → String
  | .kbis => "kbis"
  | .urssaf => "urssaf"

/-- Key of an entry in the OS secret store (`Bun.secrets` keys: a service
namespace plus a secret name). -/
structure SecretKey where
  service : String
  name : String
deriving DecidableEq, Repr

/-- Values held in the secret store.  utils.ts stores `JSON.stringify` of
either a `Credentials` object or a `SessionData` object; we model the two
parsed shapes directly (serialization of these fixed shapes is a bijection,
and no claim depends on the serialized text). -/
inductive SecretValue where
  | credV (login password : String)
  | sessV (token : String) (expiresAt : Int)
deriving DecidableEq, Repr

/-- The OS secret store, as an association list keyed by `SecretKey`. -/
abbrev SecretStore : Type := List (SecretKey × SecretValue)

/-- Lookup in the secret store (`Bun.secrets.get`). -/
def storeGet : SecretStore → SecretKey → Option SecretValue
  | [], _ => none
  | (k', v) :: rest, k => if k' = k then some v else storeGet rest k

/-- Deletion from the secret store (`Bun.secrets.delete`; a no-op on an
absent key). -/
def storeDelete : SecretStore → SecretKey → SecretStore
  | [], _ => []
  | (k', v) :: rest, k =>
      if k' = k then storeDelete rest k else (k', v) :: storeDelete rest k

/-- Insertion into the secret store (`Bun.secrets.set`; overwrites any prior
value under the same key). -/
def storeSet (st : SecretStore) (k : SecretKey) (v : SecretValue) : SecretStore :=
  (k, v) :: storeDelete st k

/-- Key under which a credential is stored (utils.ts `getCredentials` /
`setCredentials` / `deleteCredentials` use `{service: KEYCHAIN_SERVICE, name}`). -/
def credKey (n : ServiceName) : SecretKey :=
  ⟨KEYCHAIN_SERVICE, n.str⟩

/-- utils.ts `getCredentials`. -/
def getCredentials (st : SecretStore) (n : ServiceName) : Option (String × String) :=
  match storeGet st (credKey n) with
  | some (.credV l p) => some (l, p)
  | _ => none

/-- utils.ts `setCredentials`. -/
def setCredentials (st : SecretStore) (n : ServiceName) (login password : String) :
    SecretStore :=
  storeSet st (credKey n) (.credV login password)

/-- utils.ts `deleteCredentials`. -/
def deleteCredentials (st : SecretStore) (n : ServiceName) : SecretStore :=
  storeDelete st (credKey n)

/-- utils.ts `sessionKey`: the session-token entry of service `name` lives
under the name `name ++ "-session"`. -/
def sessionKey (n : ServiceName) : SecretKey :=
  ⟨KEYCHAIN_SERVICE, n.str ++ "-session"⟩

/-- utils.ts `getSessionToken`, with `Date.now()` passed in explicitly as
`now`.  Returns the token (or `none`) together with the store after the
call: an entry read past its `expiresAt` is deleted (lazy eviction). -/
def getSessionToken (now : Int) (st : SecretStore) (n : ServiceName) :
    Option String × SecretStore :=
  match storeGet st (sessionKey n) with
  | none => (none, st)
  | some (.sessV t exp) =>
      if now > exp then (none, storeDelete st (sessionKey n)) else (some t, st)
  | some (.credV _ _) => (none, st)

/-- utils.ts `setSessionToken`, with `Date.now()` passed in explicitly:
stores the token with `expiresAt = now + ttlMinutes * 60 * 1000`. -/
def setSessionToken (now : Int) (st : SecretStore) (n : ServiceName)
    (token : String) (ttlMinutes : Int) : SecretStore :=
  storeSet st (sessionKey n) (.sessV token (now + ttlMinutes * 60 * 1000))

/-- utils.ts `deleteSessionToken`. -/
def deleteSessionToken (st : SecretStore) (n : ServiceName) : SecretStore :=
  storeDelete st (sessionKey n)

theorem storeGet_storeDelete_self (st : SecretStore) (k : SecretKey) :
    storeGet (storeDelete st k) k = none := by
  induction st with
  | nil => rfl
  | cons hd tl ih =>
      obtain ⟨k', v⟩ := hd
      by_cases h : k' = k
      · simpa [storeDelete, h] using ih
      · simpa [storeDelete, storeGet, h] using ih

theorem storeGet_storeDelete_ne (st : SecretStore) (k k' : SecretKey)
    (h : k ≠ k') : storeGet (storeDelete st k') k = storeGet st k := by
  have h' : ¬(k' = k) := fun hk => h hk.symm
  induction st with
  | nil => rfl
  | cons hd tl ih =>
      obtain ⟨k₀, v⟩ := hd
      by_cases h0 : k₀ = k'
      · simp [storeDelete, storeGet, h0, h', ih]
      · by_cases h1 : k₀ = k
        · simp [storeDelete, storeGet, h0, h1, h, ih]
        · simp [storeDelete, storeGet, h0, h1, ih]

theorem storeGet_storeSet_self (st : SecretStore) (k : SecretKey) (v : SecretValue) :
    storeGet (storeSet st k v) k = some v := by
  simp [storeSet, storeGet]

theorem storeGet_storeSet_ne (st : SecretStore) (k k' : SecretKey) (v : SecretValue)
    (h : k ≠ k') : storeGet (storeSet st k' v) k = storeGet st k := by
  have h' : k' ≠ k := fun hk => h hk.symm
  simp [storeSet, storeGet, h', storeGet_storeDelete_ne st k k' h]

theorem credKey_ne_sessionKey (s s' : ServiceName) : credKey s ≠ sessionKey s' := by
  cases s <;> cases s' <;> decide

/-- C3: `setSessionToken` stores the token with
`expiresAt = now + ttlMinutes * 60 * 1000`; a `getSessionToken` at any time
`now' ≤ expiresAt` returns the token and leaves the store unchanged; a
`getSessionToken` at any time `now' > expiresAt` returns `none` and deletes
the underlying secret-store entry, so any subsequent `getSessionToken`
finds no entry (destructive lazy eviction on the first expired read). -/
theorem sessionCache_ttl_semantics (now now' now'' : Int) (st : SecretStore)
    (n : ServiceName) (t : String) (ttl : Int) :
    storeGet (setSessionToken now st n t ttl) (sessionKey n) =
      some (.sessV t (now + ttl * 60 * 1000)) ∧
    (now' ≤ now + ttl * 60 * 1000 →
      getSessionToken now' (setSessionToken now st n t ttl) n =
        (some t, setSessionToken now st n t ttl)) ∧
    (now' > now + ttl * 60 * 1000 →
      (getSessionToken now' (setSessionToken now st n t ttl) n).1 = none ∧
      storeGet (getSessionToken now' (setSessionToken now st n t ttl) n).2
        (sessionKey n) = none ∧
      (getSessionToken now''
        (getSessionToken now' (setSessionToken now st n t ttl) n).2 n).1 = none) := by
  refine ⟨storeGet_storeSet_self .., ?_, ?_⟩
  · intro h
    have h' : ¬(now' > now + ttl * 60 * 1000) := not_lt.mpr h
    simp [getSessionToken, setSessionToken, storeGet_storeSet_self, h']
  · intro h
    refine ⟨?_, ?_, ?_⟩ <;>
      simp [getSessionToken, setSessionToken, storeGet_storeSet_self, h,
        storeGet_storeDelete_self]

/-- C10: credentials live under key `(KEYCHAIN_SERVICE, s)` and session
tokens under `(KEYCHAIN_SERVICE, s ++ "-session")`; for all service names
these keys are distinct, so `setCredentials`/`deleteCredentials` never
touch a session-token entry and `setSessionToken`/`deleteSessionToken`
never touch a credential entry. -/
theorem credential_session_keyspace_disjoint (st : SecretStore)
    (s s' : ServiceName) (l p t : String) (ttl now : Int) :
    credKey s ≠ sessionKey s' ∧
    storeGet (setCredentials st s l p) (sessionKey s') = storeGet st (sessionKey s') ∧
    storeGet (deleteCredentials st s) (sessionKey s') = storeGet st (sessionKey s') ∧
    storeGet (setSessionToken now st s t ttl) (credKey s') = storeGet st (credKey s') ∧
    storeGet (deleteSessionToken st s) (credKey s') = storeGet st (credKey s') := by
  have h1 : credKey s ≠ sessionKey s' := credKey_ne_sessionKey s s'
  have h2 : sessionKey s' ≠ credKey s := fun h => h1 h.symm
  have h3 : credKey s' ≠ sessionKey s := credKey_ne_sessionKey s' s
  refine ⟨h1, ?_, ?_, ?_, ?_⟩
  · exact storeGet_storeSet_ne st (sessionKey s') (credKey s) _ h2
  · exact storeGet_storeDelete_ne st (sessionKey s') (credKey s) h2
  · exact storeGet_storeSet_ne st (credKey s') (sessionKey s) _ h3
  · exact storeGet_storeDelete_ne st (credKey s') (sessionKey s) h3

/-- Per-schedule-entry payment record (`paiement` field). -/
structure Paiement where
  montantPaye : ℚ
deriving DecidableEq, Repr

/-- Due-date record of a schedule entry (`exigibilite` field). -/
structure Exigibilite where
  dateExigibilite : String
deriving DecidableEq, Repr

/-- A schedule entry (`interface Echeance` in mes-echeances-urssaf.ts).
Monetary amounts are modelled as exact rationals. -/
structure Echeance where
  montantTotal : ℚ
  montantNonPaye : ℚ
  paiement : Paiement
  exigibilite : Exigibilite
  etatEcheance : String
deriving DecidableEq, Repr

/-- The `totaux` triple computed by `printEcheances`: the three-cell
accumulator mutated inside the `.map` callback, one entry at a time in list
order, i.e. a left fold.  (The per-row string formatting in the same
callback never touches the accumulator and is not modelled.) -/
def printEcheancesTotaux (echeances : List Echeance) : ℚ × ℚ × ℚ :=
  echeances.foldl
    (fun t e =>
      (t.1 + e.montantTotal, t.2.1 + e.paiement.montantPaye, t.2.2 + e.montantNonPaye))
    (0, 0, 0)

theorem printEcheancesTotaux_foldl (es : List Echeance) (a b c : ℚ) :
    es.foldl
      (fun t e =>
        (t.1 + e.montantTotal, t.2.1 + e.paiement.montantPaye, t.2.2 + e.montantNonPaye))
      (a, b, c) =
      (a + (es.map (·.montantTotal)).sum,
       b + (es.map (fun e => e.paiement.montantPaye)).sum,
       c + (es.map (·.montantNonPaye)).sum) := by
  induction es generalizing a b c with
  | nil => simp
  | cons e tl ih => simp [List.foldl, ih, add_assoc]

/-- C9: for every list of schedule entries the printed totals equal the
exact sums over all entries of `montantTotal`, of `paiement.montantPaye`
and of `montantNonPaye`, computed by a single left-to-right accumulation. -/
theorem printEcheances_totaux_eq_sums (es : List Echeance) :
    printEcheancesTotaux es =
      ((es.map (·.montantTotal)).sum,
       (es.map (fun e => e.paiement.montantPaye)).sum,
       (es.map (·.montantNonPaye)).sum) := by
  simpa [printEcheancesTotaux] using printEcheancesTotaux_foldl es 0 0 0

/-- Prefix test on character lists (Boolean). -/
def isPrefixL : List Char → List Char → Bool
  | [], _ => true
  | _ :: _, [] => false
  | p :: ps, c :: cs => p = c && isPrefixL ps cs

/-- Substring occurrence test on character lists. -/
def containsAt : List Char → List Char → Bool
  | [], pat => pat.isEmpty
  | c :: rest, pat => isPrefixL pat (c :: rest) || containsAt rest pat

/-- JS `String.prototype.includes`. -/
def strContains (s pat : String) : Bool :=
  containsAt s.toList pat.toList

/-- JS `String.prototype.startsWith`. -/
def strStarts (s pre : String) : Bool :=
  isPrefixL pre.toList s.toList

/-- Trim of leading and trailing whitespace (JS `String.prototype.trim`). -/
def trimChars (l : List Char) : List Char :=
  ((l.dropWhile Char.isWhitespace).reverse.dropWhile Char.isWhitespace).reverse

/-- JS truthiness of a nullable string: `null` and `""` are falsy. -/
def truthyStr : Option String → Option String
  | none => none
  | some v => if v = "" then none else some v

/-- Split on `;` (the separator `Bun.CookieMap` recognises in a cookie
string). -/
def splitSemis : List Char → List (List Char)
  | [] => [[]]
  | c :: rest =>
      if c = ';' then [] :: splitSemis rest
      else
        match splitSemis rest with
        | h :: t => (c :: h) :: t
        | [] => [[c]]

/-- Join of the set-cookie header values with `"; "`
(`response.headers.getSetCookie().join("; ")` in utils.ts `parseCookies`). -/
def joinSemi : List String → List Char
  | [] => []
  | [s] => s.toList
  | s :: rest => s.toList ++ ';' :: ' ' :: joinSemi rest

/-- One `name=value` pair of a cookie string: the name is what stands
before the first `=` (trimmed), the value everything after it. -/
def cookiePairOf (part : List Char) : String × String :=
  match part.dropWhile (· ≠ '=') with
  | '=' :: v => (String.mk (trimChars (part.takeWhile (· ≠ '='))), String.mk v)
  | _ => (String.mk (trimChars part), "")

/-- utils.ts `parseCookies`: the set-cookie headers joined with `"; "` and
read as a `Bun.CookieMap` (pairs separated by `;`, split at the first `=`). -/
def parseCookies (setCookies : List String) : List (String × String) :=
  (splitSemis (joinSemi setCookies)).map cookiePairOf

/-- Lookup in a cookie map; a later pair under the same name overwrites an
earlier one, as sequential map insertion does. -/
def cookieGet (cs : List (String × String)) (n : String) : Option String :=
  cs.foldl (fun acc p => if p.1 = n then some p.2 else acc) none

/-- An HTTP response as the scripts observe it: status, `location` header,
raw set-cookie headers, body text. -/
structure HttpResponse where
  status : Nat
  location : Option String
  setCookies : List String
  body : String

/-- Message raised by the URSSAF `login` when the portal reports bad
credentials (part_000 lines 58-60). -/
def credRejectedMsg : String :=
  "Authentification échouée : identifiant ou mot de passe incorrect.\nLes identifiants ont été supprimés du trousseau. Relancez le script."

/-- Message raised by the URSSAF `login` when the `ctxUrssaf` cookie is
absent and the body shows no known error (part_000 line 62). -/
def ctxMissingMsg : String :=
  "Cookie ctxUrssaf non trouvé - l'API URSSAF a peut-être changé"

/-- First phase of the URSSAF `login` (part_000 lines 41-63): inspect the
`/cnx` response's cookies; without a truthy `ctxUrssaf` value, a body
containing the known French error substring deletes the stored credential
and raises the credential-rejected error, any other body raises the
contract-change error.  On success the raw cookie value is handed to the
decoding step.  Returns the outcome together with the secret store after
the call. -/
def loginCnxStep (res : HttpResponse) (st : SecretStore) :
    Except String String × SecretStore :=
  match truthyStr (cookieGet (parseCookies res.setCookies) "ctxUrssaf") with
  | none =>
      if strContains res.body "Erreur d'identifiant ou de mot de passe" then
        (.error credRejectedMsg, deleteCredentials st .urssaf)
      else
        (.error ctxMissingMsg, st)
  | some v => (.ok v, st)

theorem getCredentials_deleteCredentials_self (st : SecretStore) (n : ServiceName) :
    getCredentials (deleteCredentials st n) n = none := by
  simp [getCredentials, deleteCredentials, storeGet_storeDelete_self]

/-- C1 (amended): on a `/cnx` response without a truthy `ctxUrssaf` cookie,
a body containing the substring the code checks for —
"Erreur d'identifiant ou de mot de passe" — makes `login` delete the
stored urssaf credential (a subsequent `getCredentials` finds none) and
raise the credential-rejected error, whose text contains "identifiant ou
mot de passe incorrect"; a body without that substring makes it raise the
distinct contract-change error naming the missing `ctxUrssaf` cookie and
leaves the store untouched. -/
theorem loginCnx_failure_contract (res : HttpResponse) (st : SecretStore) :
    (truthyStr (cookieGet (parseCookies res.setCookies) "ctxUrssaf") = none →
      (strContains res.body "Erreur d'identifiant ou de mot de passe" = true →
        loginCnxStep res st = (.error credRejectedMsg, deleteCredentials st .urssaf) ∧
        getCredentials (loginCnxStep res st).2 .urssaf = none) ∧
      (strContains res.body "Erreur d'identifiant ou de mot de passe" = false →
        loginCnxStep res st = (.error ctxMissingMsg, st))) ∧
    credRejectedMsg ≠ ctxMissingMsg ∧
    strContains ctxMissingMsg "ctxUrssaf" = true ∧
    strContains credRejectedMsg "identifiant ou mot de passe incorrect" = true := by
  refine ⟨?_, by decide, by decide, by decide⟩
  intro hc
  constructor
  · intro hb
    constructor
    · simp [loginCnxStep, hc, hb]
    · simp [loginCnxStep, hc, hb, getCredentials_deleteCredentials_self]
  · intro hb
    simp [loginCnxStep, hc, hb]

/-- C1 counterexample: a `/cnx` response with no cookies whose body is
exactly "identifiant ou mot de passe incorrect" — the substring the claim
names — does not take the credential-rejected branch: the code checks for
"Erreur d'identifiant ou de mot de passe", so it raises the contract-change
error and the stored urssaf credential survives. -/
theorem loginCnx_claimed_substring_refuted :
    strContains
        { status := 200, location := none, setCookies := [],
          body := "identifiant ou mot de passe incorrect" : HttpResponse }.body
        "identifiant ou mot de passe incorrect" = true ∧
    truthyStr (cookieGet (parseCookies
        ({ status := 200, location := none, setCookies := [],
           body := "identifiant ou mot de passe incorrect" : HttpResponse }).setCookies)
        "ctxUrssaf") = none ∧
    loginCnxStep
        { status := 200, location := none, setCookies := [],
          body := "identifiant ou mot de passe incorrect" }
        [(credKey .urssaf, .credV "user" "pw")] =
      (.error ctxMissingMsg, [(credKey .urssaf, .credV "user" "pw")]) ∧
    getCredentials
        (loginCnxStep
          { status := 200, location := none, setCookies := [],
            body := "identifiant ou mot de passe incorrect" }
          [(credKey .urssaf, .credV "user" "pw")]).2 .urssaf =
      some ("user", "pw") := by
  refine ⟨by decide, by decide, by rfl, by rfl⟩

/-- Terminal commands `askPassword` issues via `Bun.$`. -/
inductive TermCmd where
  | echoOff
  | echoOn
deriving DecidableEq, Repr

/-- utils.ts `askPassword` (lines 305-314) over an abstract awaited stdin
read which, as an awaited JS operation, either yields the entered line or
raises: `stty -echo`, then the read, then `stty echo`, in sequence, with no
try/finally around the middle step.  The result is paired with the list of
terminal commands issued, in order.  (The promise the script actually
awaits is built with a resolve callback only; the raising case models a
failing read collaborator.) -/
def askPassword (read : Except String String) : Except String String × List TermCmd :=
  match read with
  | .ok s => (.ok s, [.echoOff, .echoOn])
  | .error e => (.error e, [.echoOff])

/-- C6 (amended): on the success path of `askPassword` the echo-disable is
followed by the echo re-enable before the prompt returns; on a raising
read the error propagates after only the echo-disable has run — the code
contains no scoped restoration, so the failure path leaves the terminal
with echo disabled. -/
theorem askPassword_echo_paths (read : Except String String) :
    (∀ s, read = .ok s →
      askPassword read = (.ok s, [.echoOff, .echoOn])) ∧
    (∀ e, read = .error e →
      askPassword read = (.error e, [.echoOff]) ∧
      TermCmd.echoOn ∉ (askPassword read).2) := by
  constructor
  · intro s hs
    subst hs
    rfl
  · intro e he
    subst he
    exact ⟨rfl, by simp [askPassword]⟩

/-- C6 counterexample: a raising read exits `askPassword` with the error
propagated while the terminal is still in echo-disabled state — the
command trace holds `stty -echo` and no `stty echo`. -/
theorem askPassword_failure_leaves_echo_off :
    askPassword (.error "read failed") = (.error "read failed", [.echoOff]) ∧
    TermCmd.echoOn ∉ (askPassword (.error "read failed")).2 := by
  exact ⟨rfl, by decide⟩

/-- The PHPSESSID cookie of a response, as the walk reads it
(mon-kbis.ts lines 137-138, via `parseCookies` and JS truthiness). -/
def phpCookie (r : HttpResponse) : Option String :=
  truthyStr (cookieGet (parseCookies r.setCookies) "PHPSESSID")

/-- Resolution of a relative `location` against the portal origin
(mon-kbis.ts lines 145-147). -/
def resolveMonidenumUrl (u : String) : String :=
  if strStarts u "http" then u else "https://monidenum.fr" ++ u

/-- The `for (let i = 0; i < 5; i++)` redirect walk of the legacy `login`
(mon-kbis.ts lines 132-148), with the remaining iteration budget as fuel:
fetch the current URL, stop with the PHPSESSID value if the response sets
one, stop empty-handed when the response is not a 302 or carries no
`location`, otherwise continue on the resolved next URL.  Returns the
session id found (`""` for none, as the mutable `phpsessid` variable does)
together with the list of URLs fetched, in order. -/
def redirectWalkLoop (net : String → HttpResponse) : Nat → String → String × List String
  | 0, _ => ("", [])
  | fuel + 1, url =>
      match phpCookie (net url) with
      | some v => (v, [url])
      | none =>
          match truthyStr (net url).location with
          | some nxt =>
              if (net url).status = 302 then
                ((redirectWalkLoop net fuel (resolveMonidenumUrl nxt)).1,
                  url :: (redirectWalkLoop net fuel (resolveMonidenumUrl nxt)).2)
              else ("", [url])
          | none => ("", [url])

/-- Message raised when the walk finds no session cookie
(mon-kbis.ts line 151). -/
def phpsessidMissingMsg : String :=
  "PHPSESSID non trouvé après les redirections"

/-- The redirect phase of the legacy `login`: the 5-hop walk followed by
the emptiness check of mon-kbis.ts lines 150-152. -/
def kbisRedirectPhase (net : String → HttpResponse) (redirectUrl : String) :
    Except String String × List String :=
  (if (redirectWalkLoop net 5 redirectUrl).1 = "" then .error phpsessidMissingMsg
   else .ok (redirectWalkLoop net 5 redirectUrl).1,
   (redirectWalkLoop net 5 redirectUrl).2)

theorem truthyStr_some_ne (o : Option String) (v : String)
    (h : truthyStr o = some v) : v ≠ "" := by
  cases o with
  | none => exact absurd h (by simp [truthyStr])
  | some w =>
      by_cases hw : w = ""
      · simp [truthyStr, hw] at h
      · simp [truthyStr, hw] at h
        exact h ▸ hw

theorem redirectWalkLoop_spec (net : String → HttpResponse) (fuel : Nat) (u : String) :
    (redirectWalkLoop net fuel u).2.length ≤ fuel ∧
    ((redirectWalkLoop net fuel u).1 ≠ "" →
      ∃ pre last, (redirectWalkLoop net fuel u).2 = pre ++ [last] ∧
        phpCookie (net last) = some (redirectWalkLoop net fuel u).1 ∧
        ∀ w ∈ pre, phpCookie (net w) = none) ∧
    ((redirectWalkLoop net fuel u).1 = "" →
      ∀ w ∈ (redirectWalkLoop net fuel u).2, phpCookie (net w) = none) := by
  induction fuel generalizing u with
  | zero => simp [redirectWalkLoop]
  | succ n ih =>
      rcases hc : phpCookie (net u) with _ | v
      · rcases hl : truthyStr (net u).location with _ | nxt
        · have hred : redirectWalkLoop net (n + 1) u = ("", [u]) := by
            simp [redirectWalkLoop, hc, hl]
          refine ⟨by simp [hred], by simp [hred], ?_⟩
          intro _ w hw
          rw [hred] at hw
          simp at hw
          rw [hw]
          exact hc
        · by_cases hs : (net u).status = 302
          · have hred : redirectWalkLoop net (n + 1) u =
                ((redirectWalkLoop net n (resolveMonidenumUrl nxt)).1,
                  u :: (redirectWalkLoop net n (resolveMonidenumUrl nxt)).2) := by
              simp [redirectWalkLoop, hc, hl, hs]
            obtain ⟨ih1, ih2, ih3⟩ := ih (resolveMonidenumUrl nxt)
            refine ⟨?_, ?_, ?_⟩
            · rw [hred]
              simpa using Nat.succ_le_succ ih1
            · intro hne
              rw [hred] at hne ⊢
              obtain ⟨pre, last, hsplit, hlast, hpre⟩ := ih2 hne
              refine ⟨u :: pre, last, by simp [hsplit], hlast, ?_⟩
              intro w hw
              rcases List.mem_cons.mp hw with hwu | hwp
              · rw [hwu]
                exact hc
              · exact hpre w hwp
            · intro hz w hw
              rw [hred] at hz hw
              rcases List.mem_cons.mp hw with hwu | hwp
              · rw [hwu]
                exact hc
              · exact ih3 hz w hwp
          · have hred : redirectWalkLoop net (n + 1) u = ("", [u]) := by
              simp [redirectWalkLoop, hc, hl, hs]
            refine ⟨by simp [hred], by simp [hred], ?_⟩
            intro _ w hw
            rw [hred] at hw
            simp at hw
            rw [hw]
            exact hc
      · have hred : redirectWalkLoop net (n + 1) u = (v, [u]) := by
          simp [redirectWalkLoop, hc]
        have hv : v ≠ "" := truthyStr_some_ne _ _ hc
        refine ⟨by simp [hred], ?_, ?_⟩
        · intro _
          rw [hred]
          exact ⟨[], u, by simp, by simpa using hc, by simp⟩
        · intro hz
          rw [hred] at hz
          exact absurd hz hv

/-- C2: the manual redirect walk after the monidenum login POST fetches at
most 5 URLs — a 6th request is never issued; when it succeeds the returned
value is the PHPSESSID cookie set by the last fetched response and no
earlier fetched response set one (it stops at the first such hop); when no
fetched hop sets the cookie — the budget runs out or a non-302 or
location-less response ends the chain — it raises the
session-cookie-not-found error. -/
theorem kbisRedirectWalk_bounded (net : String → HttpResponse) (u : String) :
    (kbisRedirectPhase net u).2.length ≤ 5 ∧
    (∀ v, (kbisRedirectPhase net u).1 = .ok v →
      ∃ pre last, (kbisRedirectPhase net u).2 = pre ++ [last] ∧
        phpCookie (net last) = some v ∧
        ∀ w ∈ pre, phpCookie (net w) = none) ∧
    (∀ m, (kbisRedirectPhase net u).1 = .error m →
      m = phpsessidMissingMsg ∧
      ∀ w ∈ (kbisRedirectPhase net u).2, phpCookie (net w) = none) := by
  obtain ⟨h1, h2, h3⟩ := redirectWalkLoop_spec net 5 u
  by_cases hz : (redirectWalkLoop net 5 u).1 = ""
  · refine ⟨h1, ?_, ?_⟩
    · intro v hv
      simp [kbisRedirectPhase, hz] at hv
    · intro m hm
      simp only [kbisRedirectPhase, hz, if_pos] at hm ⊢
      have : m = phpsessidMissingMsg := by
        cases hm
        rfl
      exact ⟨this, h3 hz⟩
  · refine ⟨h1, ?_, ?_⟩
    · intro v hv
      simp only [kbisRedirectPhase, hz, if_neg, if_false] at hv
      have hv' : (redirectWalkLoop net 5 u).1 = v := by
        cases hv
        rfl
      exact hv' ▸ h2 hz
    · intro m hm
      simp [kbisRedirectPhase, hz] at hm

/-- Match of the tail of the regex `class="alert[^"]*"[^>]*>([^<]+)` at a
position just past the literal `class="alert`: skip to the closing quote,
then past the closing `>`, then capture the nonempty run of characters up
to the next `<`. -/
def alertTailMatch (s : List Char) : Option (List Char) :=
  match s.dropWhile (· ≠ '"') with
  | '"' :: r1 =>
      match r1.dropWhile (· ≠ '>') with
      | '>' :: r2 =>
          if (r2.takeWhile (· ≠ '<')).isEmpty then none
          else some (r2.takeWhile (· ≠ '<'))
      | _ => none
  | _ => none

/-- Leftmost match of `/class="alert[^"]*"[^>]*>([^<]+)/` (mon-kbis.ts
line 122): scan left to right for the literal `class="alert` and return
the capture of the first position whose tail matches. -/
def alertScan : List Char → Option (List Char)
  | [] => none
  | c :: rest =>
      if isPrefixL ("class=\"alert".toList) (c :: rest) then
        match alertTailMatch ((c :: rest).drop 12) with
        | some cap => some cap
        | none => alertScan rest
      else alertScan rest

/-- Global replacement of the HTML entity `&#39;` by an apostrophe
(mon-kbis.ts line 124). -/
def decodeApos : List Char → List Char
  | '&' :: '#' :: '3' :: '9' :: ';' :: rest => Char.ofNat 39 :: decodeApos rest
  | c :: rest => c :: decodeApos rest
  | [] => []

/-- Error text extraction of the legacy login (mon-kbis.ts lines 122-125):
the first alert-class element's text with `&#39;` decoded and whitespace
trimmed, or "Erreur inconnue" when nothing matches. -/
def alertErrorMessage (body : String) : String :=
  match alertScan body.toList with
  | some cap => String.mk (trimChars (decodeApos cap))
  | none => "Erreur inconnue"

/-- Message raised on a redirect outside the expected portal
(mon-kbis.ts line 129). -/
def unexpectedRedirectMsg : String :=
  "Redirection inattendue après authentification"

/-- Outcome of the legacy login POST (mon-kbis.ts lines 119-130): a
non-302 response raises the alert-element message; a 302 whose `location`
is absent, empty, or lacking the substring "monidenum.fr" raises the
unexpected-redirect error; otherwise the redirect URL is handed to the
walk. -/
def loginPostOutcome (res : HttpResponse) : Except String String :=
  if res.status ≠ 302 then
    .error ("Authentification: " ++ alertErrorMessage res.body)
  else
    match truthyStr res.location with
    | none => .error unexpectedRedirectMsg
    | some u =>
        if strContains u "monidenum.fr" then .ok u
        else .error unexpectedRedirectMsg

/-- Spec-side predicate (the claim's wording): a URL belonging to the
expected `https://monidenum.fr` origin. -/
def belongsToMonidenumOrigin (u : String) : Bool :=
  u = "https://monidenum.fr" || strStarts u "https://monidenum.fr/"

/-- C4 (amended): a non-302 login POST response raises an error carrying
the text of the first alert-class element, `&#39;` decoded and trimmed
(the fixture conjuncts exhibit the extraction, the entity decoding, and
first-element selection); a 302 whose `location` is absent, empty, or
lacking the substring "monidenum.fr" raises the distinct
unexpected-redirect error; a 302 whose location has the substring is
followed. -/
theorem loginPost_failure_contract (res : HttpResponse) :
    (res.status ≠ 302 →
      loginPostOutcome res =
        .error ("Authentification: " ++ alertErrorMessage res.body)) ∧
    alertErrorMessage "<div class=\"alert alert-danger\">Invalid password</div>" =
      "Invalid password" ∧
    alertErrorMessage "<div class=\"alert\">aa&#39;bb</div>" =
      String.mk ['a', 'a', Char.ofNat 39, 'b', 'b'] ∧
    alertErrorMessage
        "<div class=\"alert one\">Premier</div><div class=\"alert two\">Second</div>" =
      "Premier" ∧
    (res.status = 302 → truthyStr res.location = none →
      loginPostOutcome res = .error unexpectedRedirectMsg) ∧
    (∀ u, res.status = 302 → truthyStr res.location = some u →
      strContains u "monidenum.fr" = false →
      loginPostOutcome res = .error unexpectedRedirectMsg) ∧
    (∀ u, res.status = 302 → truthyStr res.location = some u →
      strContains u "monidenum.fr" = true →
      loginPostOutcome res = .ok u) := by
  refine ⟨?_, by rfl, by rfl, by rfl, ?_, ?_, ?_⟩
  · intro h
    simp [loginPostOutcome, h]
  · intro h hl
    simp [loginPostOutcome, h, hl]
  · intro u h hl hcon
    simp [loginPostOutcome, h, hl, hcon]
  · intro u h hl hcon
    simp [loginPostOutcome, h, hl, hcon]

/-- C4 counterexample: a 302 login POST response whose Location sits on a
foreign origin but mentions "monidenum.fr" in its query string — the claim
demands the unexpected-redirect error for every target outside the
monidenum.fr origin, yet the code's substring test accepts it and the
redirect is followed. -/
theorem loginPost_origin_guard_refuted :
    belongsToMonidenumOrigin "https://evil.example/login?to=monidenum.fr" = false ∧
    loginPostOutcome
        { status := 302,
          location := some "https://evil.example/login?to=monidenum.fr",
          setCookies := [], body := "" } =
      .ok "https://evil.example/login?to=monidenum.fr" := by
  exact ⟨by decide, by rfl⟩

/-- The base64 alphabet (RFC 4648 §4), as `Buffer.toString("base64")`
uses it. -/
def b64Alphabet : List Char :=
  "ABCDEFGHIJKLMNOPQRSTUVWXYZabcdefghijklmnopqrstuvwxyz0123456789+/".toList

/-- The base64url alphabet (RFC 4648 §5), as `Buffer.toString("base64url")`
uses it. -/
def b64urlAlphabet : List Char :=
  "ABCDEFGHIJKLMNOPQRSTUVWXYZabcdefghijklmnopqrstuvwxyz0123456789-_".toList

/-- Character of a six-bit group. -/
def b64CharAt (alpha : List Char) (n : Nat) : Char :=
  alpha.getD n '?'

/-- Index of a character in an alphabet; `none` for characters outside it
(`Buffer.from(s, "base64")` skips those, `=` padding included). -/
def charIdx : List Char → Char → Option Nat
  | [], _ => none
  | a :: rest, c => if a = c then some 0 else (charIdx rest c).map (· + 1)

/-- Big-endian six-bit groups of a byte list (the bit stream base64
encodes), the incomplete final group zero-padded on the right. -/
def bytesToSextets : List Nat → List Nat
  | b1 :: b2 :: b3 :: rest =>
      b1 / 4 :: ((b1 % 4) * 16 + b2 / 16) :: ((b2 % 16) * 4 + b3 / 64) :: (b3 % 64) ::
        bytesToSextets rest
  | [b1, b2] => [b1 / 4, (b1 % 4) * 16 + b2 / 16, (b2 % 16) * 4]
  | [b1] => [b1 / 4, (b1 % 4) * 16]
  | [] => []

/-- Bytes reassembled from six-bit groups (base64 decoding); a lone final
group carries fewer than 8 bits and yields nothing. -/
def sextetsToBytes : List Nat → List Nat
  | s1 :: s2 :: s3 :: s4 :: rest =>
      (s1 * 4 + s2 / 16) :: ((s2 % 16) * 16 + s3 / 4) :: ((s3 % 4) * 64 + s4) ::
        sextetsToBytes rest
  | [s1, s2, s3] => [s1 * 4 + s2 / 16, (s2 % 16) * 16 + s3 / 4]
  | [s1, s2] => [s1 * 4 + s2 / 16]
  | [_] => []
  | [] => []

/-- `Buffer.toString("base64url")` (unpadded). -/
def b64urlEncodeBytes (bs : List Nat) : String :=
  String.mk ((bytesToSextets bs).map (b64CharAt b64urlAlphabet))

/-- `Buffer.toString("base64")` (with `=` padding). -/
def b64EncodeBytes (bs : List Nat) : String :=
  String.mk ((bytesToSextets bs).map (b64CharAt b64Alphabet) ++
    List.replicate ((3 - bs.length % 3) % 3) '=')

/-- `Buffer.from(s, "base64")`-style decoding over a given alphabet:
characters outside the alphabet (padding included) are skipped and the
six-bit groups are reassembled into bytes. -/
def b64DecodeBytes (alpha : List Char) (s : String) : List Nat :=
  sextetsToBytes (s.toList.filterMap (charIdx alpha))

theorem toList_mk (l : List Char) : (String.mk l).toList = l := rfl

theorem sextetsToBytes_bytesToSextets :
    ∀ bs : List Nat, (∀ b ∈ bs, b < 256) →
      sextetsToBytes (bytesToSextets bs) = bs
  | [], _ => rfl
  | [b1], h => by
      have hb1 : b1 < 256 := h b1 (by simp)
      simp only [bytesToSextets, sextetsToBytes, List.cons.injEq, and_true]
      omega
  | [b1, b2], h => by
      have hb1 : b1 < 256 := h b1 (by simp)
      have hb2 : b2 < 256 := h b2 (by simp)
      simp only [bytesToSextets, sextetsToBytes, List.cons.injEq, and_true]
      constructor
      · omega
      · omega
  | b1 :: b2 :: b3 :: rest, h => by
      have hb1 : b1 < 256 := h b1 (by simp)
      have hb2 : b2 < 256 := h b2 (by simp)
      have hb3 : b3 < 256 := h b3 (by simp)
      have ih := sextetsToBytes_bytesToSextets rest (fun b hb => h b (by simp [hb]))
      simp only [bytesToSextets, sextetsToBytes, List.cons.injEq]
      refine ⟨by omega, by omega, by omega, ih⟩

theorem bytesToSextets_lt :
    ∀ bs : List Nat, (∀ b ∈ bs, b < 256) →
      ∀ s ∈ bytesToSextets bs, s < 64
  | [], _ => by simp [bytesToSextets]
  | [b1], h => by
      have hb1 : b1 < 256 := h b1 (by simp)
      simp only [bytesToSextets, List.mem_cons, List.not_mem_nil, or_false]
      rintro s (rfl | rfl) <;> omega
  | [b1, b2], h => by
      have hb1 : b1 < 256 := h b1 (by simp)
      have hb2 : b2 < 256 := h b2 (by simp)
      simp only [bytesToSextets, List.mem_cons, List.not_mem_nil, or_false]
      rintro s (rfl | rfl | rfl) <;> omega
  | b1 :: b2 :: b3 :: rest, h => by
      have hb1 : b1 < 256 := h b1 (by simp)
      have hb2 : b2 < 256 := h b2 (by simp)
      have hb3 : b3 < 256 := h b3 (by simp)
      have ih := bytesToSextets_lt rest (fun b hb => h b (by simp [hb]))
      simp only [bytesToSextets, List.mem_cons]
      rintro s (rfl | rfl | rfl | rfl | hs)
      · omega
      · omega
      · omega
      · omega
      · exact ih s hs

theorem charIdx_b64url_all :
    ∀ n < 64, charIdx b64urlAlphabet (b64CharAt b64urlAlphabet n) = some n := by
  decide

theorem charIdx_b64_all :
    ∀ n < 64, charIdx b64Alphabet (b64CharAt b64Alphabet n) = some n := by
  decide

theorem filterMap_charIdx_map (alpha : List Char)
    (hidx : ∀ n < 64, charIdx alpha (b64CharAt alpha n) = some n) :
    ∀ l : List Nat, (∀ x ∈ l, x < 64) →
      (l.map (b64CharAt alpha)).filterMap (charIdx alpha) = l := by
  intro l hl
  induction l with
  | nil => rfl
  | cons x rest ih =>
      have hx : x < 64 := hl x (by simp)
      simp only [List.map_cons, List.filterMap_cons, hidx x hx]
      rw [ih (fun y hy => hl y (by simp [hy]))]

theorem filterMap_charIdx_replicate_eq (k : Nat) :
    (List.replicate k '=').filterMap (charIdx b64Alphabet) = [] := by
  induction k with
  | zero => rfl
  | succ n ih =>
      simp only [List.replicate_succ, List.filterMap_cons]
      have : charIdx b64Alphabet '=' = none := by decide
      rw [this, ih]

theorem b64url_roundtrip (bs : List Nat) (h : ∀ b ∈ bs, b < 256) :
    b64DecodeBytes b64urlAlphabet (b64urlEncodeBytes bs) = bs := by
  unfold b64DecodeBytes b64urlEncodeBytes
  rw [toList_mk, filterMap_charIdx_map _ charIdx_b64url_all _ (bytesToSextets_lt bs h)]
  exact sextetsToBytes_bytesToSextets bs h

theorem b64_std_roundtrip (bs : List Nat) (h : ∀ b ∈ bs, b < 256) :
    b64DecodeBytes b64Alphabet (b64EncodeBytes bs) = bs := by
  unfold b64DecodeBytes b64EncodeBytes
  rw [toList_mk, List.filterMap_append,
    filterMap_charIdx_map _ charIdx_b64_all _ (bytesToSextets_lt bs h),
    filterMap_charIdx_replicate_eq, List.append_nil]
  exact sextetsToBytes_bytesToSextets bs h

theorem b64urlEncodeBytes_inj (bs bs' : List Nat)
    (h : ∀ b ∈ bs, b < 256) (h' : ∀ b ∈ bs', b < 256)
    (he : b64urlEncodeBytes bs = b64urlEncodeBytes bs') : bs = bs' := by
  have hd := congrArg (b64DecodeBytes b64urlAlphabet) he
  rwa [b64url_roundtrip bs h, b64url_roundtrip bs' h'] at hd

/-- UTF-8 bytes of one code point. -/
def utf8EncodeCodepoint (n : Nat) : List Nat :=
  if n < 0x80 then [n]
  else if n < 0x800 then [0xC0 + n / 64, 0x80 + n % 64]
  else if n < 0x10000 then [0xE0 + n / 4096, 0x80 + n / 64 % 64, 0x80 + n % 64]
  else [0xF0 + n / 262144, 0x80 + n / 4096 % 64, 0x80 + n / 64 % 64, 0x80 + n % 64]

/-- UTF-8 bytes of a character list. -/
def utf8EncodeChars (l : List Char) : List Nat :=
  (l.map (fun c => utf8EncodeCodepoint c.toNat)).flatten

/-- UTF-8 bytes of a string (what `Buffer.from(s)` or a hash update reads
from a JS string). -/
def strUtf8 (s : String) : List Nat :=
  utf8EncodeChars s.toList

/-- Split on `&`. -/
def splitAmp : List Char → List (List Char)
  | [] => [[]]
  | c :: rest =>
      if c = '&' then [] :: splitAmp rest
      else
        match splitAmp rest with
        | h :: t => (c :: h) :: t
        | [] => [[c]]

/-- Lookup of a query parameter, as `new URL(u).searchParams.get(k)` reads
it: the part after the first `?` (up to any `#` fragment), split on `&`,
each pair split at the first `=`, first match wins.  Percent-decoding of
the value is not modelled — the script only forwards the opaque token
values it reads here. -/
def getQueryParam (url k : String) : Option String :=
  match url.toList.dropWhile (· ≠ '?') with
  | '?' :: q =>
      (splitAmp (q.takeWhile (· ≠ '#'))).foldr
        (fun part acc =>
          if String.mk (part.takeWhile (· ≠ '=')) = k then
            match part.dropWhile (· ≠ '=') with
            | '=' :: v => some (String.mk v)
            | _ => some ""
          else acc)
        none
  | _ => none

/-- Query parameters of the `/api/oauth/v1/authorize` request
(part_000 lines 80-93). -/
structure AuthorizeParams where
  response_type : String
  client_id : String
  state : String
  redirect_uri : String
  scope : String
  code_challenge : String
  code_challenge_method : String
  nonce : String
  prompt : String
  subject_token : String
  subject_token_type : String
deriving DecidableEq, Repr

/-- Form fields of the `/api/oauth/v1/token` request
(part_000 lines 100-115). -/
structure TokenParams where
  grant_type : String
  code : String
  redirect_uri : String
  code_verifier : String
  client_id : String
deriving DecidableEq, Repr

/-- The OIDC handshake requests `login` constructs after the context-cookie
step (part_000 lines 67-115), as a function of the portal inputs:
`sha256` stands for Node's `createHash("sha256")` digest over the bytes it
was updated with, `clientId` for the fetched configuration value,
`cnxLocation` and `authLocation` for the `Location` headers of the `/cnx`
and authorize responses, and `r1`, `r2`, `r3` for the three 32-byte
`randomBytes` samples in program order (codeVerifier, state, nonce).  The
source's non-null assertions on the extracted query parameters are modelled
by a `""` default. -/
def oidcRequests (sha256 : List Nat → List Nat) (clientId : String)
    (cnxLocation authLocation : String) (r1 r2 r3 : List Nat) :
    AuthorizeParams × TokenParams :=
  ({ response_type := "code"
     client_id := clientId
     state := b64urlEncodeBytes r2 ++ "-0000000000-webti"
     redirect_uri := "https://webti.urssaf.fr/callback"
     scope := "openid webti.metier webti.metier.v2 deci.ti offline_access ods.cedito ods.session"
     code_challenge := b64urlEncodeBytes (sha256 (strUtf8 (b64urlEncodeBytes r1)))
     code_challenge_method := "S256"
     nonce := b64urlEncodeBytes r3
     prompt := "none"
     subject_token := (getQueryParam cnxLocation "tokenBds").getD ""
     subject_token_type := "urn:oauth2:180035016:acoss:token-bds" },
   { grant_type := "authorization_code"
     code := (getQueryParam authLocation "code").getD ""
     redirect_uri := "https://webti.urssaf.fr/callback"
     code_verifier := b64urlEncodeBytes r1
     client_id := clientId })

/-- C5: the `code_verifier` form field sent to the token endpoint is
exactly the base64url encoding of the first 32-byte random sample — the
same `codeVerifier` whose SHA-256 digest, base64url encoded, is the
`code_challenge` query parameter of the authorization request, sent with
`code_challenge_method=S256` — and the token request carries
`grant_type=authorization_code` and the `code` taken from the
authorization response's `Location` header. -/
theorem oidc_pkce_binding (sha256 : List Nat → List Nat) (clientId : String)
    (cnxLocation authLocation : String) (r1 r2 r3 : List Nat) :
    ((oidcRequests sha256 clientId cnxLocation authLocation r1 r2 r3).2.code_verifier =
      b64urlEncodeBytes r1) ∧
    ((oidcRequests sha256 clientId cnxLocation authLocation r1 r2 r3).1.code_challenge =
      b64urlEncodeBytes (sha256 (strUtf8
        (oidcRequests sha256 clientId cnxLocation authLocation r1 r2 r3).2.code_verifier))) ∧
    ((oidcRequests sha256 clientId cnxLocation authLocation r1 r2 r3).1.code_challenge_method =
      "S256") ∧
    ((oidcRequests sha256 clientId cnxLocation authLocation r1 r2 r3).2.grant_type =
      "authorization_code") ∧
    (∀ c, getQueryParam authLocation "code" = some c →
      (oidcRequests sha256 clientId cnxLocation authLocation r1 r2 r3).2.code = c) := by
  refine ⟨rfl, rfl, rfl, rfl, ?_⟩
  intro c hc
  simp [oidcRequests, hc]

/-- PKCE material of one `login` run. -/
structure PkceMaterial where
  codeVerifier : String
  state : String
  nonce : String
deriving DecidableEq, Repr

/-- PKCE material generated inside one `login` run (part_000 lines 75-93)
from the three 32-byte `randomBytes` samples drawn during that run:
`codeVerifier = base64url(r1)`, `state = base64url(r2)` with the fixed
discriminator suffix, `nonce = base64url(r3)`.  The construction reads and
writes no secret-store state. -/
def pkceMaterial (r1 r2 r3 : List Nat) : PkceMaterial :=
  { codeVerifier := b64urlEncodeBytes r1
    state := b64urlEncodeBytes r2 ++ "-0000000000-webti"
    nonce := b64urlEncodeBytes r3 }

theorem string_append_right_cancel (a b s : String) (h : a ++ s = b ++ s) :
    a = b := by
  have hl : a.toList ++ s.toList = b.toList ++ s.toList := congrArg String.toList h
  have : a.toList = b.toList := by
    have hrev := congrArg List.reverse hl
    simp only [List.reverse_append] at hrev
    have := List.append_cancel_left hrev
    exact List.reverse_injective this
  cases a
  cases b
  exact congrArg String.mk this

/-- C8: two `login` runs whose random sources yield distinct byte samples
produce distinct `codeVerifier`/`state`/`nonce` triples — each value is
derived injectively (base64url is injective on byte lists) from its own
fresh 32-byte sample, and the construction involves no persistent store. -/
theorem pkce_freshness (r1 r2 r3 s1 s2 s3 : List Nat)
    (h1 : ∀ b ∈ r1, b < 256) (h2 : ∀ b ∈ r2, b < 256) (h3 : ∀ b ∈ r3, b < 256)
    (h4 : ∀ b ∈ s1, b < 256) (h5 : ∀ b ∈ s2, b < 256) (h6 : ∀ b ∈ s3, b < 256)
    (hne : (r1, r2, r3) ≠ (s1, s2, s3)) :
    pkceMaterial r1 r2 r3 ≠ pkceMaterial s1 s2 s3 := by
  intro heq
  apply hne
  have hv : b64urlEncodeBytes r1 = b64urlEncodeBytes s1 :=
    congrArg PkceMaterial.codeVerifier heq
  have hst : b64urlEncodeBytes r2 ++ "-0000000000-webti" =
      b64urlEncodeBytes s2 ++ "-0000000000-webti" :=
    congrArg PkceMaterial.state heq
  have hn : b64urlEncodeBytes r3 = b64urlEncodeBytes s3 :=
    congrArg PkceMaterial.nonce heq
  have e1 : r1 = s1 := b64urlEncodeBytes_inj _ _ h1 h4 hv
  have e2 : r2 = s2 :=
    b64urlEncodeBytes_inj _ _ h2 h5 (string_append_right_cancel _ _ _ hst)
  have e3 : r3 = s3 := b64urlEncodeBytes_inj _ _ h3 h6 hn
  rw [e1, e2, e3]

/-- C8 witness: two concrete runs differing only in the first random
sample produce different PKCE triples. -/
theorem pkce_freshness_witness :
    pkceMaterial (List.replicate 32 0) (List.replicate 32 1) (List.replicate 32 2) ≠
      pkceMaterial (List.replicate 32 3) (List.replicate 32 1) (List.replicate 32 2) :=
  pkce_freshness _ _ _ _ _ _ (by decide) (by decide) (by decide) (by decide)
    (by decide) (by decide) (by decide)

theorem char_toNat_lt (c : Char) : c.toNat < 1114112 := by
  rcases c.valid with h | ⟨_, h2⟩
  · exact Nat.lt_trans h (by norm_num)
  · exact h2

/-- One UTF-8 decoding step: the code point read at lead byte `b` with
following bytes `rest`, and the bytes remaining after it.  Ill-formed
sequences yield the U+FFFD replacement code point, as `Buffer.toString()`
does (the examined bytes are consumed). -/
def utf8Step (b : Nat) (rest : List Nat) : Nat × List Nat :=
  if b < 0x80 then (b, rest)
  else if b < 0xC0 then (0xFFFD, rest)
  else if b < 0xE0 then
    match rest with
    | b2 :: r2 =>
        if 0x80 ≤ b2 ∧ b2 < 0xC0 then ((b - 0xC0) * 64 + (b2 - 0x80), r2)
        else (0xFFFD, r2)
    | [] => (0xFFFD, [])
  else if b < 0xF0 then
    match rest with
    | b2 :: b3 :: r3 =>
        if (0x80 ≤ b2 ∧ b2 < 0xC0) ∧ (0x80 ≤ b3 ∧ b3 < 0xC0) then
          ((b - 0xE0) * 4096 + (b2 - 0x80) * 64 + (b3 - 0x80), r3)
        else (0xFFFD, r3)
    | _ => (0xFFFD, [])
  else
    match rest with
    | b2 :: b3 :: b4 :: r4 =>
        if (0x80 ≤ b2 ∧ b2 < 0xC0) ∧ (0x80 ≤ b3 ∧ b3 < 0xC0) ∧
            (0x80 ≤ b4 ∧ b4 < 0xC0) then
          ((b - 0xF0) * 262144 + (b2 - 0x80) * 4096 + (b3 - 0x80) * 64 + (b4 - 0x80), r4)
        else (0xFFFD, r4)
    | _ => (0xFFFD, [])

theorem utf8Step_snd_length (b : Nat) (rest : List Nat) :
    (utf8Step b rest).2.length ≤ rest.length := by
  unfold utf8Step
  repeat' split
  all_goals simp_all
  all_goals omega

/-- Total UTF-8 decoding of bytes to code points, one `utf8Step` at a
time; on well-formed input it inverts `utf8EncodeChars`. -/
def utf8DecodeList : List Nat → List Nat
  | [] => []
  | b :: rest => (utf8Step b rest).1 :: utf8DecodeList (utf8Step b rest).2
termination_by l => l.length
decreasing_by
  have := utf8Step_snd_length b rest
  simp
  omega

theorem utf8DecodeList_encode_cons (n : Nat) (h : n < 1114112) (rest : List Nat) :
    utf8DecodeList (utf8EncodeCodepoint n ++ rest) = n :: utf8DecodeList rest := by
  by_cases h1 : n < 0x80
  · simp only [utf8EncodeCodepoint, if_pos h1, List.cons_append, List.nil_append]
    rw [utf8DecodeList]
    simp only [utf8Step, if_pos h1]
  · by_cases h2 : n < 0x800
    · have e1 : ¬(0xC0 + n / 64 < 0x80) := by omega
      have e2 : ¬(0xC0 + n / 64 < 0xC0) := by omega
      have e3 : 0xC0 + n / 64 < 0xE0 := by omega
      have e4 : 0x80 ≤ 0x80 + n % 64 ∧ 0x80 + n % 64 < 0xC0 := by omega
      simp only [utf8EncodeCodepoint, if_neg h1, if_pos h2, List.cons_append,
        List.nil_append]
      rw [utf8DecodeList]
      simp only [utf8Step, if_neg e1, if_neg e2, if_pos e3, if_pos e4,
        List.cons.injEq]
      exact ⟨by omega, trivial⟩
    · by_cases h3 : n < 0x10000
      · have e1 : ¬(0xE0 + n / 4096 < 0x80) := by omega
        have e2 : ¬(0xE0 + n / 4096 < 0xC0) := by omega
        have e3 : ¬(0xE0 + n / 4096 < 0xE0) := by omega
        have e4 : 0xE0 + n / 4096 < 0xF0 := by omega
        have e5 : (0x80 ≤ 0x80 + n / 64 % 64 ∧ 0x80 + n / 64 % 64 < 0xC0) ∧
            0x80 ≤ 0x80 + n % 64 ∧ 0x80 + n % 64 < 0xC0 := by omega
        simp only [utf8EncodeCodepoint, if_neg h1, if_neg h2, if_pos h3,
          List.cons_append, List.nil_append]
        rw [utf8DecodeList]
        simp only [utf8Step, if_neg e1, if_neg e2, if_neg e3, if_pos e4, if_pos e5,
          List.cons.injEq]
        exact ⟨by omega, trivial⟩
      · have e1 : ¬(0xF0 + n / 262144 < 0x80) := by omega
        have e2 : ¬(0xF0 + n / 262144 < 0xC0) := by omega
        have e3 : ¬(0xF0 + n / 262144 < 0xE0) := by omega
        have e4 : ¬(0xF0 + n / 262144 < 0xF0) := by omega
        have e5 : (0x80 ≤ 0x80 + n / 4096 % 64 ∧ 0x80 + n / 4096 % 64 < 0xC0) ∧
            (0x80 ≤ 0x80 + n / 64 % 64 ∧ 0x80 + n / 64 % 64 < 0xC0) ∧
            0x80 ≤ 0x80 + n % 64 ∧ 0x80 + n % 64 < 0xC0 := by omega
        simp only [utf8EncodeCodepoint, if_neg h1, if_neg h2, if_neg h3,
          List.cons_append, List.nil_append]
        rw [utf8DecodeList]
        simp only [utf8Step, if_neg e1, if_neg e2, if_neg e3, if_neg e4, if_pos e5,
          List.cons.injEq]
        exact ⟨by omega, trivial⟩

theorem utf8DecodeList_utf8EncodeChars (l : List Char) :
    utf8DecodeList (utf8EncodeChars l) = l.map Char.toNat := by
  induction l with
  | nil => simp [utf8EncodeChars, utf8DecodeList]
  | cons c t ih =>
      simp only [utf8EncodeChars, List.map_cons, List.flatten_cons] at *
      rw [utf8DecodeList_encode_cons c.toNat (char_toNat_lt c), ih]

theorem utf8EncodeCodepoint_lt (n : Nat) (h : n < 1114112) :
    ∀ b ∈ utf8EncodeCodepoint n, b < 256 := by
  intro b hb
  unfold utf8EncodeCodepoint at hb
  by_cases h1 : n < 0x80
  · simp [h1] at hb
    omega
  · by_cases h2 : n < 0x800
    · simp [h1, h2] at hb
      rcases hb with rfl | rfl <;> omega
    · by_cases h3 : n < 0x10000
      · simp [h1, h2, h3] at hb
        rcases hb with rfl | rfl | rfl <;> omega
      · simp [h1, h2, h3] at hb
        rcases hb with rfl | rfl | rfl | rfl <;> omega

theorem utf8EncodeChars_lt (l : List Char) :
    ∀ b ∈ utf8EncodeChars l, b < 256 := by
  intro b hb
  unfold utf8EncodeChars at hb
  obtain ⟨bs, hbs, hmem⟩ := List.mem_flatten.mp hb
  obtain ⟨c, _, rfl⟩ := List.mem_map.mp hbs
  exact utf8EncodeCodepoint_lt c.toNat (char_toNat_lt c) b hmem

/-- Code points back to a string, the final step of `Buffer.toString()`.
(`Char.ofNat` maps the rare invalid code point to NUL; the code points the
decoder produces for well-formed input are the original characters.) -/
def codepointsToString (l : List Nat) : String :=
  String.mk (l.map Char.ofNat)

theorem codepointsToString_map_toNat (l : List Char) :
    codepointsToString (l.map Char.toNat) = String.mk l := by
  simp [codepointsToString, List.map_map, Function.comp_def]

theorem mk_toList (s : String) : String.mk s.toList = s := by
  cases s
  rfl

/-- The account context carried by the `ctxUrssaf` cookie
(`interface Compte` in part_000). -/
structure Compte where
  siret : String
  orga : String
  numc : String
deriving DecidableEq, Repr

/-- Opening brace character. -/
def lbrace : Char := Char.ofNat 123

/-- Closing brace character. -/
def rbrace : Char := Char.ofNat 125

/-- Lowercase hexadecimal digit. -/
def hexDigitChar (n : Nat) : Char :=
  "0123456789abcdef".toList.getD n '0'

/-- JSON string escaping of one character, as `JSON.stringify` performs
it: `"` and `\` get backslash escapes, the five control characters with
short escapes use them, other control characters use `\u00..`, everything
else is literal. -/
def jsonEscapeChar (c : Char) : List Char :=
  if c = '"' then ['\\', '"']
  else if c = '\\' then ['\\', '\\']
  else if c.toNat = 8 then ['\\', 'b']
  else if c.toNat = 9 then ['\\', 't']
  else if c.toNat = 10 then ['\\', 'n']
  else if c.toNat = 12 then ['\\', 'f']
  else if c.toNat = 13 then ['\\', 'r']
  else if c.toNat < 32 then
    ['\\', 'u', '0', '0', hexDigitChar (c.toNat / 16), hexDigitChar (c.toNat % 16)]
  else [c]

/-- A JSON string literal: quoted and escaped. -/
def jsonQuote (s : String) : List Char :=
  '"' :: ((s.toList.map jsonEscapeChar).flatten ++ ['"'])

/-- Modelled from the spec: the portal-side payload of the round-trip law,
`JSON.stringify({compte: {siret: X, orga: Y, numc: Z}})`, keys in this
order, no whitespace. -/
def ctxJsonChars (c : Compte) : List Char :=
  lbrace :: (jsonQuote "compte" ++ (':' :: (lbrace ::
    (jsonQuote "siret" ++ (':' :: (jsonQuote c.siret ++ (',' ::
      (jsonQuote "orga" ++ (':' :: (jsonQuote c.orga ++ (',' ::
        (jsonQuote "numc" ++ (':' :: (jsonQuote c.numc ++
          [rbrace, rbrace]))))))))))))))

/-- One JSON value of the fragment the context cookie uses: strings and
objects with string keys. -/
inductive JsonVal where
  | str (s : String)
  | obj (fields : List (String × JsonVal))

/-- Decoding of a single-character JSON escape. -/
def unescapeChar (c : Char) : Option Char :=
  if c = '"' then some '"'
  else if c = '\\' then some '\\'
  else if c = '/' then some '/'
  else if c = 'b' then some (Char.ofNat 8)
  else if c = 'f' then some (Char.ofNat 12)
  else if c = 'n' then some (Char.ofNat 10)
  else if c = 'r' then some (Char.ofNat 13)
  else if c = 't' then some (Char.ofNat 9)
  else none

/-- Value of a hexadecimal digit character. -/
def parseHexDigit (c : Char) : Option Nat :=
  if '0' ≤ c ∧ c ≤ '9' then some (c.toNat - 48)
  else if 'a' ≤ c ∧ c ≤ 'f' then some (c.toNat - 87)
  else if 'A' ≤ c ∧ c ≤ 'F' then some (c.toNat - 55)
  else none

/-- Body of a JSON string after its opening quote: the decoded characters
and the input following the closing quote. -/
def parseJsonStringBody : List Char → Option (List Char × List Char)
  | [] => none
  | c :: rest =>
      if c = '"' then some ([], rest)
      else if c = '\\' then
        match rest with
        | [] => none
        | e :: r2 =>
            if e = 'u' then
              match r2 with
              | h1 :: h2 :: h3 :: h4 :: r3 =>
                  match parseHexDigit h1, parseHexDigit h2,
                      parseHexDigit h3, parseHexDigit h4 with
                  | some a, some b, some c3, some d =>
                      (parseJsonStringBody r3).map
                        (fun p => (Char.ofNat (((a * 16 + b) * 16 + c3) * 16 + d) :: p.1, p.2))
                  | _, _, _, _ => none
              | _ => none
            else
              match unescapeChar e with
              | some u => (parseJsonStringBody r2).map (fun p => (u :: p.1, p.2))
              | none => none
      else (parseJsonStringBody rest).map (fun p => (c :: p.1, p.2))

/-- JSON whitespace. -/
def isJsonWs (c : Char) : Bool :=
  c = ' ' || c = '\t' || c = '\n' || c = '\r'

/-- Skip of leading JSON whitespace. -/
def skipWs (l : List Char) : List Char :=
  l.dropWhile isJsonWs

mutual

/-- Recursive-descent parse of one JSON value (string or object), with a
fuel bound on nesting; `JSON.parse` over the fragment the context cookie
uses. -/
def parseJsonValue : Nat → List Char → Option (JsonVal × List Char)
  | 0, _ => none
  | fuel + 1, l =>
      match skipWs l with
      | [] => none
      | c :: rest =>
          if c = '"' then
            (parseJsonStringBody rest).map
              (fun p => (JsonVal.str (String.mk p.1), p.2))
          else if c = lbrace then parseJsonObject fuel rest
          else none

/-- Parse of an object body after its opening brace. -/
def parseJsonObject : Nat → List Char → Option (JsonVal × List Char)
  | 0, _ => none
  | fuel + 1, l =>
      match skipWs l with
      | [] => none
      | c :: rest =>
          if c = rbrace then some (JsonVal.obj [], rest)
          else (parseJsonFields fuel (c :: rest)).map
            (fun p => (JsonVal.obj p.1, p.2))

/-- Parse of one or more comma-separated `"key": value` fields followed by
the closing brace. -/
def parseJsonFields : Nat → List Char → Option (List (String × JsonVal) × List Char)
  | 0, _ => none
  | fuel + 1, l =>
      match skipWs l with
      | [] => none
      | c :: rest =>
          if c = '"' then
            match parseJsonStringBody rest with
            | none => none
            | some kp =>
                match skipWs kp.2 with
                | [] => none
                | c2 :: r2 =>
                    if c2 = ':' then
                      match parseJsonValue fuel r2 with
                      | none => none
                      | some vp =>
                          match skipWs vp.2 with
                          | [] => none
                          | c3 :: r3 =>
                              if c3 = ',' then
                                match parseJsonFields fuel r3 with
                                | none => none
                                | some fp =>
                                    some ((String.mk kp.1, vp.1) :: fp.1, fp.2)
                              else if c3 = rbrace then
                                some ([(String.mk kp.1, vp.1)], r3)
                              else none
                    else none
          else none

end

/-- `JSON.parse` of a whole input (a length-derived fuel bound covers any
nesting; only trailing whitespace may remain). -/
def jsonParse (s : String) : Option JsonVal :=
  match parseJsonValue (s.toList.length + 1) s.toList with
  | some p => if (skipWs p.2).isEmpty then some p.1 else none
  | none => none

/-- Field lookup in a parsed JSON object. -/
def jsonField (v : JsonVal) (k : String) : Option JsonVal :=
  match v with
  | .obj fs => (fs.find? (fun f => f.1 == k)).map (fun f => f.2)
  | .str _ => none

/-- The account-context projection the script performs on the parsed JSON:
`const { compte } = JSON.parse(...)` and the later reads of
`compte.siret`, `compte.orga`, `compte.numc` (part_000 lines 65, 125). -/
def compteOfJson (v : JsonVal) : Option Compte :=
  match jsonField v "compte" with
  | some cv =>
      match jsonField cv "siret", jsonField cv "orga", jsonField cv "numc" with
      | some (.str s), some (.str o), some (.str n) => some ⟨s, o, n⟩
      | _, _, _ => none
  | none => none

/-- The parsed form of `ctxJsonChars`. -/
def ctxJsonVal (c : Compte) : JsonVal :=
  .obj [("compte", .obj [("siret", .str c.siret), ("orga", .str c.orga),
    ("numc", .str c.numc)])]

/-- Maximal run of `%XX` escapes at the head of the input: the bytes and
the remainder; `none` for a malformed escape (`decodeURIComponent` raises
a URIError). -/
def pctRun : List Char → Option (List Nat × List Char)
  | [] => some ([], [])
  | c :: rest =>
      if c = '%' then
        match rest with
        | h1 :: h2 :: r2 =>
            match parseHexDigit h1, parseHexDigit h2 with
            | some a, some b =>
                match pctRun r2 with
                | some (bs, r) => some ((a * 16 + b) :: bs, r)
                | none => none
            | _, _ => none
        | _ => none
      else some ([], c :: rest)

/-- `decodeURIComponent`: each maximal `%XX` run decodes as a UTF-8 byte
sequence, every other character passes through.  Fueled by the input
length.  (A run decoding to ill-formed UTF-8 raises in JS; here it yields
replacement characters — no claim exercises that path.) -/
def pctDecodeChars : Nat → List Char → Option (List Char)
  | _, [] => some []
  | 0, _ :: _ => none
  | fuel + 1, c :: rest =>
      if c = '%' then
        match pctRun (c :: rest) with
        | some (bs, r) =>
            (pctDecodeChars fuel r).map
              (fun tail => (utf8DecodeList bs).map Char.ofNat ++ tail)
        | none => none
      else (pctDecodeChars fuel rest).map (fun tail => c :: tail)

/-- `decodeURIComponent` on a string. -/
def pctDecode (s : String) : Option String :=
  (pctDecodeChars s.toList.length s.toList).map String.mk

/-- Context-cookie decoding as `login` performs it (part_000 line 65):
`JSON.parse(Buffer.from(decodeURIComponent(v), "base64").toString())`
followed by the `compte` projection. -/
def decodeCtxCookie (v : String) : Option Compte :=
  match pctDecode v with
  | some s =>
      match jsonParse (codepointsToString
          (utf8DecodeList (b64DecodeBytes b64Alphabet s))) with
      | some j => compteOfJson j
      | none => none
  | none => none

/-- Spec-side encoder of the round-trip law:
`base64(JSON({compte: {siret: X, orga: Y, numc: Z}}))`. -/
def specCtxCookieEncode (c : Compte) : String :=
  b64EncodeBytes (utf8EncodeChars (ctxJsonChars c))

theorem parseHexDigit_hexDigitChar : ∀ n < 16, parseHexDigit (hexDigitChar n) = some n := by
  decide

theorem char_eq_ofNat_of_toNat (c : Char) (n : Nat) (h : c.toNat = n) :
    Char.ofNat n = c := by
  rw [← h, Char.ofNat_toNat]

theorem parseJsonStringBody_quote (l rest : List Char) :
    parseJsonStringBody ((l.map jsonEscapeChar).flatten ++ ('"' :: rest)) =
      some (l, rest) := by
  induction l with
  | nil =>
      rw [parseJsonStringBody.eq_def]
      simp
  | cons c t ih =>
      simp only [List.map_cons, List.flatten_cons, List.append_assoc]
      by_cases h1 : c = '"'
      · subst h1
        simp only [jsonEscapeChar, if_pos rfl, List.cons_append, List.nil_append]
        rw [parseJsonStringBody.eq_def]
        simp [unescapeChar, ih]
      · by_cases h2 : c = '\\'
        · subst h2
          simp only [jsonEscapeChar, if_neg (by decide : ¬('\\' : Char) = '"'),
            if_pos rfl, List.cons_append, List.nil_append]
          rw [parseJsonStringBody.eq_def]
          simp [unescapeChar, ih]
        · by_cases h3 : c.toNat = 8
          · simp only [jsonEscapeChar, if_neg h1, if_neg h2, if_pos h3,
              List.cons_append, List.nil_append]
            rw [parseJsonStringBody.eq_def]
            simp [unescapeChar, ih]
            exact char_eq_ofNat_of_toNat c 8 h3
          · by_cases h4 : c.toNat = 9
            · simp only [jsonEscapeChar, if_neg h1, if_neg h2, if_neg h3, if_pos h4,
                List.cons_append, List.nil_append]
              rw [parseJsonStringBody.eq_def]
              simp [unescapeChar, ih]
              exact char_eq_ofNat_of_toNat c 9 h4
            · by_cases h5 : c.toNat = 10
              · simp only [jsonEscapeChar, if_neg h1, if_neg h2, if_neg h3, if_neg h4,
                  if_pos h5, List.cons_append, List.nil_append]
                rw [parseJsonStringBody.eq_def]
                simp [unescapeChar, ih]
                exact char_eq_ofNat_of_toNat c 10 h5
              · by_cases h6 : c.toNat = 12
                · simp only [jsonEscapeChar, if_neg h1, if_neg h2, if_neg h3, if_neg h4,
                    if_neg h5, if_pos h6, List.cons_append, List.nil_append]
                  rw [parseJsonStringBody.eq_def]
                  simp [unescapeChar, ih]
                  exact char_eq_ofNat_of_toNat c 12 h6
                · by_cases h7 : c.toNat = 13
                  · simp only [jsonEscapeChar, if_neg h1, if_neg h2, if_neg h3,
                      if_neg h4, if_neg h5, if_neg h6, if_pos h7,
                      List.cons_append, List.nil_append]
                    rw [parseJsonStringBody.eq_def]
                    simp [unescapeChar, ih]
                    exact char_eq_ofNat_of_toNat c 13 h7
                  · by_cases h8 : c.toNat < 32
                    · have hhi := parseHexDigit_hexDigitChar (c.toNat / 16) (by omega)
                      have hlo := parseHexDigit_hexDigitChar (c.toNat % 16) (by omega)
                      simp only [jsonEscapeChar, if_neg h1, if_neg h2, if_neg h3,
                        if_neg h4, if_neg h5, if_neg h6, if_neg h7, if_pos h8,
                        List.cons_append, List.nil_append]
                      have h0 : parseHexDigit '0' = some 0 := by decide
                      rw [parseJsonStringBody.eq_def]
                      simp [hhi, hlo, h0, ih]
                      apply char_eq_ofNat_of_toNat
                      omega
                    · simp only [jsonEscapeChar, if_neg h1, if_neg h2, if_neg h3,
                        if_neg h4, if_neg h5, if_neg h6, if_neg h7, if_neg h8,
                        List.cons_append, List.nil_append]
                      rw [parseJsonStringBody.eq_def]
                      simp [h1, h2, ih]

theorem jsonQuote_append (s : String) (tail : List Char) :
    jsonQuote s ++ tail = '"' :: ((s.toList.map jsonEscapeChar).flatten ++ ('"' :: tail)) := by
  simp [jsonQuote]

theorem parseJsonValue_quote (n : Nat) (s : String) (tail : List Char) :
    parseJsonValue (n + 1) (jsonQuote s ++ tail) = some (.str s, tail) := by
  rw [jsonQuote_append, parseJsonValue.eq_def]
  simp [skipWs, isJsonWs, parseJsonStringBody_quote, mk_toList]

theorem parseJsonFields_last (n : Nat) (k v : String) (tail : List Char) :
    parseJsonFields (n + 2) (jsonQuote k ++ (':' :: (jsonQuote v ++ (rbrace :: tail)))) =
      some ([(k, .str v)], tail) := by
  rw [jsonQuote_append, parseJsonFields.eq_def]
  simp only [skipWs, isJsonWs, List.dropWhile]
  simp [parseJsonStringBody_quote, parseJsonValue_quote, mk_toList, rbrace, skipWs, isJsonWs]

theorem parseJsonFields_two (n : Nat) (k1 v1 k2 v2 : String) (tail : List Char) :
    parseJsonFields (n + 3) (jsonQuote k1 ++ (':' :: (jsonQuote v1 ++ (',' ::
      (jsonQuote k2 ++ (':' :: (jsonQuote v2 ++ (rbrace :: tail)))))))) =
      some ([(k1, .str v1), (k2, .str v2)], tail) := by
  rw [show n + 3 = (n + 2) + 1 from rfl, jsonQuote_append, parseJsonFields.eq_def]
  simp [parseJsonStringBody_quote, parseJsonValue_quote, parseJsonFields_last,
    mk_toList, skipWs, isJsonWs]

theorem parseJsonFields_three (n : Nat) (k1 v1 k2 v2 k3 v3 : String) (tail : List Char) :
    parseJsonFields (n + 4) (jsonQuote k1 ++ (':' :: (jsonQuote v1 ++ (',' ::
      (jsonQuote k2 ++ (':' :: (jsonQuote v2 ++ (',' ::
        (jsonQuote k3 ++ (':' :: (jsonQuote v3 ++ (rbrace :: tail)))))))))))) =
      some ([(k1, .str v1), (k2, .str v2), (k3, .str v3)], tail) := by
  rw [show n + 4 = (n + 3) + 1 from rfl, jsonQuote_append, parseJsonFields.eq_def]
  simp [parseJsonStringBody_quote, parseJsonValue_quote, parseJsonFields_two,
    mk_toList, skipWs, isJsonWs]

theorem parseJsonValue_succ (fuel : Nat) (l : List Char) :
    parseJsonValue (fuel + 1) l =
      (match skipWs l with
      | [] => none
      | c :: rest =>
          if c = '"' then
            (parseJsonStringBody rest).map
              (fun p => (JsonVal.str (String.mk p.1), p.2))
          else if c = lbrace then parseJsonObject fuel rest
          else none) := rfl

theorem parseJsonObject_succ (fuel : Nat) (l : List Char) :
    parseJsonObject (fuel + 1) l =
      (match skipWs l with
      | [] => none
      | c :: rest =>
          if c = rbrace then some (JsonVal.obj [], rest)
          else (parseJsonFields fuel (c :: rest)).map
            (fun p => (JsonVal.obj p.1, p.2))) := rfl

theorem parseJsonFields_succ (fuel : Nat) (l : List Char) :
    parseJsonFields (fuel + 1) l =
      (match skipWs l with
      | [] => none
      | c :: rest =>
          if c = '"' then
            match parseJsonStringBody rest with
            | none => none
            | some kp =>
                match skipWs kp.2 with
                | [] => none
                | c2 :: r2 =>
                    if c2 = ':' then
                      match parseJsonValue fuel r2 with
                      | none => none
                      | some vp =>
                          match skipWs vp.2 with
                          | [] => none
                          | c3 :: r3 =>
                              if c3 = ',' then
                                match parseJsonFields fuel r3 with
                                | none => none
                                | some fp =>
                                    some ((String.mk kp.1, vp.1) :: fp.1, fp.2)
                              else if c3 = rbrace then
                                some ([(String.mk kp.1, vp.1)], r3)
                              else none
                    else none
          else none) := rfl

theorem skipWs_cons (c : Char) (t : List Char) (h : isJsonWs c = false) :
    skipWs (c :: t) = c :: t := by
  simp [skipWs, List.dropWhile_cons, h]

theorem parseJsonValue_innerObj (n : Nat) (k1 v1 k2 v2 k3 v3 : String) (tail : List Char) :
    parseJsonValue (n + 6) (lbrace ::
      (jsonQuote k1 ++ (':' :: (jsonQuote v1 ++ (',' ::
        (jsonQuote k2 ++ (':' :: (jsonQuote v2 ++ (',' ::
          (jsonQuote k3 ++ (':' :: (jsonQuote v3 ++ (rbrace :: tail))))))))))))) =
      some (.obj [(k1, .str v1), (k2, .str v2), (k3, .str v3)], tail) := by
  rw [show n + 6 = (n + 5) + 1 from rfl, parseJsonValue_succ]
  rw [skipWs_cons _ _ (by decide)]
  simp only [if_neg (by decide : ¬(lbrace = '"')), if_pos rfl]
  rw [show (n + 5 : Nat) = (n + 4) + 1 from rfl, parseJsonObject_succ]
  rw [jsonQuote_append, skipWs_cons _ _ (by decide)]
  simp only [if_neg (by decide : ¬(('"' : Char) = rbrace)), ← jsonQuote_append]
  rw [parseJsonFields_three]
  rfl

theorem parseJsonFields_objField (n : Nat) (k0 k1 v1 k2 v2 k3 v3 : String)
    (tail : List Char) :
    parseJsonFields (n + 7) (jsonQuote k0 ++ (':' :: (lbrace ::
      (jsonQuote k1 ++ (':' :: (jsonQuote v1 ++ (',' ::
        (jsonQuote k2 ++ (':' :: (jsonQuote v2 ++ (',' ::
          (jsonQuote k3 ++ (':' :: (jsonQuote v3 ++
            (rbrace :: (rbrace :: tail)))))))))))))))) =
      some ([(k0, .obj [(k1, .str v1), (k2, .str v2), (k3, .str v3)])], tail) := by
  rw [show n + 7 = (n + 6) + 1 from rfl, jsonQuote_append, parseJsonFields_succ]
  rw [skipWs_cons _ _ (by decide)]
  simp only [if_pos rfl, parseJsonStringBody_quote]
  rw [skipWs_cons _ _ (by decide)]
  simp only [if_pos rfl, parseJsonValue_innerObj]
  rw [skipWs_cons _ _ (by decide)]
  simp only [if_neg (by decide : ¬(rbrace = ',')), if_pos rfl, mk_toList]
  simp

theorem parseJsonValue_ctx (n : Nat) (c : Compte) :
    parseJsonValue (n + 9) (ctxJsonChars c) = some (ctxJsonVal c, []) := by
  rw [ctxJsonChars, show n + 9 = (n + 8) + 1 from rfl, parseJsonValue_succ]
  rw [skipWs_cons _ _ (by decide)]
  simp only [if_neg (by decide : ¬(lbrace = '"')), if_pos rfl]
  rw [show (n + 8 : Nat) = (n + 7) + 1 from rfl, parseJsonObject_succ]
  rw [jsonQuote_append, skipWs_cons _ _ (by decide)]
  simp only [if_neg (by decide : ¬(('"' : Char) = rbrace)), ← jsonQuote_append]
  rw [parseJsonFields_objField]
  rfl

theorem jsonParse_ctx (c : Compte) :
    jsonParse (String.mk (ctxJsonChars c)) = some (ctxJsonVal c) := by
  have hlen : 8 ≤ (ctxJsonChars c).length := by
    have h1 : (jsonQuote "compte").length = 8 := by decide
    simp [ctxJsonChars, List.length_append, h1]
    omega
  obtain ⟨m, hm⟩ : ∃ m, (ctxJsonChars c).length + 1 = m + 9 :=
    ⟨(ctxJsonChars c).length - 8, by omega⟩
  rw [jsonParse, toList_mk, hm, parseJsonValue_ctx]
  simp [skipWs]

theorem compteOfJson_ctxJsonVal (c : Compte) : compteOfJson (ctxJsonVal c) = some c := by
  rfl

theorem b64CharAt_mem_or (alpha : List Char) (n : Nat) :
    b64CharAt alpha n ∈ alpha ∨ b64CharAt alpha n = '?' := by
  induction alpha generalizing n with
  | nil =>
      right
      cases n <;> rfl
  | cons a t ih =>
      cases n with
      | zero =>
          left
          simp [b64CharAt]
      | succ m =>
          rcases ih m with h | h
          · left
            simp only [b64CharAt, List.getD_cons_succ] at h ⊢
            exact List.mem_cons_of_mem a h
          · right
            simpa [b64CharAt, List.getD_cons_succ] using h

theorem b64EncodeBytes_no_pct (bs : List Nat) :
    ∀ ch ∈ (b64EncodeBytes bs).toList, ch ≠ '%' := by
  intro ch hch
  rw [b64EncodeBytes, toList_mk] at hch
  rcases List.mem_append.mp hch with hm | hp
  · obtain ⟨n, _, rfl⟩ := List.mem_map.mp hm
    rcases b64CharAt_mem_or b64Alphabet n with h | h
    · revert h
      have : ∀ x ∈ b64Alphabet, x ≠ '%' := by decide
      intro h
      exact this _ h
    · rw [h]
      decide
  · rw [List.eq_of_mem_replicate hp]
    decide

theorem pctDecodeChars_no_pct (fuel : Nat) (l : List Char) (hf : l.length ≤ fuel)
    (h : ∀ ch ∈ l, ch ≠ '%') : pctDecodeChars fuel l = some l := by
  induction fuel generalizing l with
  | zero =>
      cases l with
      | nil => rfl
      | cons c t => simp at hf
  | succ n ih =>
      cases l with
      | nil => rfl
      | cons c t =>
          have hc : c ≠ '%' := h c (by simp)
          have ht : t.length ≤ n := by
            simp at hf
            omega
          rw [pctDecodeChars.eq_def]
          simp [hc, ih t ht (fun x hx => h x (by simp [hx]))]

theorem pctDecode_no_pct (s : String) (h : ∀ ch ∈ s.toList, ch ≠ '%') :
    pctDecode s = some s := by
  rw [pctDecode, pctDecodeChars_no_pct _ _ (le_refl _) h]
  simp [mk_toList]

/-- C7: context-cookie decoding is a pure round trip — for all strings X,
Y, Z, decoding base64(JSON({compte: {siret: X, orga: Y, numc: Z}})) as the
login operation does (percent-decode, base64 decode, UTF-8 decode, JSON
parse, projection of the `compte` field) yields exactly the record
{siret: X, orga: Y, numc: Z}. -/
theorem ctxCookie_roundtrip (X Y Z : String) :
    decodeCtxCookie (specCtxCookieEncode ⟨X, Y, Z⟩) = some ⟨X, Y, Z⟩ := by
  have hb : ∀ b ∈ utf8EncodeChars (ctxJsonChars ⟨X, Y, Z⟩), b < 256 :=
    utf8EncodeChars_lt _
  rw [decodeCtxCookie, specCtxCookieEncode,
    pctDecode_no_pct _ (b64EncodeBytes_no_pct _)]
  dsimp only
  rw [b64_std_roundtrip _ hb, utf8DecodeList_utf8EncodeChars,
    codepointsToString_map_toNat, jsonParse_ctx]
  dsimp only
  rw [compteOfJson_ctxJsonVal]

end CliAdmin
